import Mathlib

set_option maxRecDepth 4000

namespace BCell

/-!
Verification of the clonal clustering engine and pipeline controller of the
B-cell-analysis repository.

The definitions below are shallow embeddings of the Python source:
* `src/backend/utils/public_clones.py` (edit distance, CDR3 similarity,
  greedy clustering, public-clone extraction, visualization data), and
* `src/backend/pipeline_runner.py` (threshold negotiation, stage sequencing).

Machine floats of the source are modelled as exact rationals (`ℚ`); Python
strings are modelled as `List Char` (or `String` for opaque identifiers);
Python sets of already-assigned ids are modelled as lists consulted by
membership.
-/

/-! ### Edit distance
`levenshtein_distance` (public_clones.py lines 15-43) computes the edit
distance with a row-by-row dynamic program.  `dpRow` is the inner loop
(lines 35-40): it walks the remaining characters of `s2` together with the
matching slice of the previous row, carrying the value last appended to the
current row (Python reads it back as `current_row[j]`). -/

def dpRow (c1 : Char) : List Char → List Nat → Nat → List Nat
  | c2 :: cs, p0 :: p1 :: ps, last =>
      let v := min (p1 + 1) (min (last + 1) (p0 + (if c1 = c2 then 0 else 1)))
      v :: dpRow c1 cs (p1 :: ps) v
  | _, _, _ => []

/-- Outer loop of `levenshtein_distance` (lines 33-41): fold over the
characters of `s1`, carrying the previous row and the 0-based index of the
next character. -/
def dpLoop (s2 : List Char) : List Char → List Nat → Nat → List Nat
  | [], prev, _ => prev
  | c1 :: rest, prev, i => dpLoop s2 rest ((i + 1) :: dpRow c1 s2 prev (i + 1)) (i + 1)

/-- Body of `levenshtein_distance` after the argument swap (lines 29-43):
early return for an empty second string, otherwise run the dynamic program
from the row `0..len(s2)` and return the last cell of the final row. -/
def levenshteinRun (s1 s2 : List Char) : Nat :=
  if s2.length = 0 then s1.length
  else (dpLoop s2 s1 (List.range (s2.length + 1)) 0).getLastD 0

/-- Model of `levenshtein_distance` (lines 15-43).  The source first swaps the
arguments so that the first string is the longer one (line 26-27); the
recursive call is inlined here since it immediately reaches the main body. -/
def levenshtein_distance (s1 s2 : List Char) : Nat :=
  if s1.length < s2.length then levenshteinRun s2 s1 else levenshteinRun s1 s2

/-- The standard Wagner-Fischer recurrence for the
insertion/deletion/substitution edit distance between the length-`i` prefix
of `s1` and the length-`j` prefix of `s2` (the spec's "standard
single-character-edit distance").  Out-of-range positions are read with a
default character; they are never consulted for `i ≤ s1.length` and
`j ≤ s2.length`. -/
def levD (s1 s2 : List Char) : Nat → Nat → Nat
  | 0, j => j
  | i + 1, 0 => i + 1
  | i + 1, j + 1 =>
      min (levD s1 s2 i (j + 1) + 1)
        (min (levD s1 s2 (i + 1) j + 1)
          (levD s1 s2 i j + (if s1.getD i ' ' = s2.getD j ' ' then 0 else 1)))
  termination_by i j => (i, j)

/-- The contiguous slice `[f j, f (j+1), …, f (j+len-1)]` of a row of the
dynamic-programming table. -/
def rowSeg (f : Nat → Nat) : Nat → Nat → List Nat
  | _, 0 => []
  | j, len + 1 => f j :: rowSeg f (j + 1) len

/-! ### CDR3 amino-acid similarity
`calculate_aa_similarity` (public_clones.py lines 46-76).  Python floats are
modelled as exact rationals; `0.5` is the literal from line 74.  The guard
`if not seq1 or not seq2` (line 57) is emptiness of either string; the
length penalty (lines 65-68) applies when the absolute length difference
exceeds 2, and the result is floored at 0 (line 76). -/

def calculate_aa_similarity (seq1 seq2 : List Char) : ℚ :=
  if seq1 = [] ∨ seq2 = [] then 0
  else
    max 0 (1 - ((levenshtein_distance seq1 seq2 : ℚ) / ((max seq1.length seq2.length : Nat) : ℚ) +
      (if 2 < ((seq1.length : Int) - (seq2.length : Int)).natAbs then
        ((((seq1.length : Int) - (seq2.length : Int)).natAbs : Nat) : ℚ) /
          ((max seq1.length seq2.length : Nat) : ℚ)
      else 0) * 0.5))

/-- The specification's notion of edit distance: the standard
Wagner-Fischer recurrence evaluated at the full lengths of both strings. -/
def standardEditDistance (s1 s2 : List Char) : Nat :=
  levD s1 s2 s1.length s2.length

/-- The similarity formula exactly as the specification words it:
`1 − (edit_distance / max_len + length_penalty × 0.5)` floored at 0, with
`edit_distance` the standard edit distance and
`length_penalty = |len1 − len2| / max_len` when the length difference
exceeds 2 and `0` otherwise. -/
def claimedSimilarity (s1 s2 : List Char) : ℚ :=
  max 0 (1 - ((standardEditDistance s1 s2 : ℚ) / ((max s1.length s2.length : Nat) : ℚ) +
    (if 2 < ((s1.length : Int) - (s2.length : Int)).natAbs then
      ((((s1.length : Int) - (s2.length : Int)).natAbs : Nat) : ℚ) /
        ((max s1.length s2.length : Nat) : ℚ)
    else 0) * 0.5))

/-- Length-penalty example of the claim: a CDR3 of length 10 versus one of
length 15 at edit distance 5. -/
def exLen10 : List Char := List.replicate 10 'A'

def exLen15 : List Char := List.replicate 10 'A' ++ List.replicate 5 'B'

/-! ### Greedy similarity clustering
`cluster_similar_cdr3` (public_clones.py lines 79-142).  A sequence is the
tuple `(cdr3_aa, v_gene, j_gene, seq_id)`; the `assigned` set of ids is
modelled as a list consulted by membership. -/

structure SeqEntry where
  cdr3 : List Char
  v : List Char
  j : List Char
  id : String
deriving DecidableEq

/-- Model of `gene.split('*')[0]`: the characters before the first `'*'` (the gene
family, allele suffix stripped). -/
def familyOf (g : List Char) : List Char :=
  g.takeWhile (fun c => c ≠ '*')

/-- The keyword arguments of `cluster_similar_cdr3` (lines 81-83). -/
structure ClusterParams where
  similarity_threshold : ℚ
  max_aa_mismatches : Option Nat
  same_length_only : Bool

/-- The join test of the inner loop (lines 115-138): same V family and J
family (lines 116-120), optional same-length constraint (line 123), then —
when `max_aa_mismatches` is set — the absolute edit-distance cap
(lines 127-132), otherwise the similarity threshold (lines 133-138).  The
candidate is compared against the seed only. -/
def joinsSeed (p : ClusterParams) (seed cand : SeqEntry) : Bool :=
  if familyOf seed.v = familyOf cand.v ∧ familyOf seed.j = familyOf cand.j then
    if p.same_length_only ∧ seed.cdr3.length ≠ cand.cdr3.length then false
    else
      match p.max_aa_mismatches with
      | some m => decide (levenshtein_distance seed.cdr3 cand.cdr3 ≤ m)
      | none => decide (p.similarity_threshold ≤ calculate_aa_similarity seed.cdr3 cand.cdr3)
  else false

/-- The inner scan over the sequences after the seed (lines 111-138):
collect those that are unassigned and pass the join test, threading the
`assigned` set. -/
def gatherMembers (p : ClusterParams) (seed : SeqEntry) :
    List SeqEntry → List String → List SeqEntry × List String
  | [], assigned => ([], assigned)
  | c :: rest, assigned =>
      if c.id ∈ assigned then gatherMembers p seed rest assigned
      else if joinsSeed p seed c then
        let r := gatherMembers p seed rest (c.id :: assigned)
        (c :: r.1, r.2)
      else gatherMembers p seed rest assigned

/-- The outer scan (lines 101-140): every still-unassigned sequence seeds a
new cluster. -/
def clusterScan (p : ClusterParams) : List SeqEntry → List String → List (List SeqEntry)
  | [], _ => []
  | s :: rest, assigned =>
      if s.id ∈ assigned then clusterScan p rest assigned
      else
        let r := gatherMembers p s rest (s.id :: assigned)
        (s :: r.1) :: clusterScan p rest r.2

/-- Model of `cluster_similar_cdr3` (lines 79-142); clusters are listed in creation
order (the Python dict keys `cluster_0`, `cluster_1`, …). -/
def cluster_similar_cdr3 (p : ClusterParams) (sequences : List SeqEntry) :
    List (List SeqEntry) :=
  clusterScan p sequences []

/-- Seed of the C1 counterexample: 20 alanines, identical V/J families. -/
def seedC1 : SeqEntry :=
  ⟨List.replicate 20 'A', ['V', '1'], ['J', '1'], "seq_a"⟩

/-- Candidate of the C1 counterexample: 17 alanines followed by 3 other
residues, so edit distance 3 and similarity 1 − 3/20 = 0.85. -/
def candC1 : SeqEntry :=
  ⟨List.replicate 17 'A' ++ List.replicate 3 'B', ['V', '1'], ['J', '1'], "seq_b"⟩

/-! ### Clone-table rows
`analyze_public_clones` (lines 340-362) reads the clone table and keeps
only rows whose `junction_aa`, `v_call` and `j_call` are all present and
non-empty; missing TSV cells are `None` after the `pd.notna` checks. -/

structure CloneRow where
  sequence_id : String
  junction_aa : Option (List Char)
  junction : Option (List Char)
  v_call : Option (List Char)
  j_call : Option (List Char)
deriving DecidableEq

/-- The row filter and tuple construction (lines 340-353): `continue` when
`junction_aa`, `v_call` or `j_call` is missing or empty, otherwise build
`(junction_aa, v_gene, j_gene, sequence_id)` with the calls stripped at the
first `'*'` (lines 350-351). -/
def rowEntry (r : CloneRow) : Option SeqEntry :=
  match r.junction_aa, r.v_call, r.j_call with
  | some ja, some vc, some jc =>
      if ja = [] ∨ vc = [] ∨ jc = [] then none
      else some ⟨ja, familyOf vc, familyOf jc, r.sequence_id⟩
  | _, _, _ => none

/-- The list handed to the clustering engine (line 353). -/
def rowsToCluster (rows : List CloneRow) : List SeqEntry :=
  rows.filterMap rowEntry

/-- C2 counterexample row: non-empty CDR3 AA but no V call. -/
def rowC2 : CloneRow :=
  ⟨"seq_1", some ['C', 'A', 'R'], none, none, some ['J']⟩

/-- Concrete rows for the C2 witness. -/
def rowsC2W : List CloneRow :=
  [⟨"s1", some ['C', 'A', 'R'], none, some ['V', '1'], some ['J', '1']⟩,
   ⟨"s2", some ['C', 'A', 'K'], none, some ['V', '1'], some ['J', '1']⟩]

/-! ### Exact-mode grouping
`analyze_public_clones` lines 365-370: in exact mode, sequences are grouped
in a `defaultdict(list)` keyed by the f-string `cdr3||v||j`. -/

/-- The dict key of line 369: the three fields joined with the literal
two-character separator. -/
def exactKey (e : SeqEntry) : List Char :=
  e.cdr3 ++ ('|' :: '|' :: e.v) ++ ('|' :: '|' :: e.j)

/-- Append `s` to the group keyed `k`, creating the group at the end on
first use (Python dict insertion order). -/
def addToGroups (k : List Char) (s : SeqEntry) :
    List (List Char × List SeqEntry) → List (List Char × List SeqEntry)
  | [] => [(k, [s])]
  | g :: rest => if g.1 = k then (g.1, g.2 ++ [s]) :: rest else g :: addToGroups k s rest

/-- The exact-mode grouping loop (lines 367-370). -/
def exactClusters : List SeqEntry → List (List Char × List SeqEntry) →
    List (List Char × List SeqEntry)
  | [], acc => acc
  | e :: rest, acc => exactClusters rest (addToGroups (exactKey e) e acc)

/-- Rows for the C5 counterexample: the CDR3 of the first row and the
V/J calls of the second contain the reserved separator characters, so the
two distinct tuples produce the same dict key. -/
def rowC5a : CloneRow :=
  ⟨"s1", some ('A' :: '|' :: '|' :: ['B']), none, some ['C'], some ['D']⟩

def rowC5b : CloneRow :=
  ⟨"s2", some ['A'], none, some ['B'], some ('C' :: '|' :: '|' :: ['D'])⟩

def entryC5a : SeqEntry :=
  ⟨'A' :: '|' :: '|' :: ['B'], ['C'], ['D'], "s1"⟩

def entryC5b : SeqEntry :=
  ⟨['A'], ['B'], 'C' :: '|' :: '|' :: ['D'], "s2"⟩

/-! ### Public-clone extraction
`analyze_public_clones` lines 380-423: a cluster is public iff its members
span at least two distinct source files.  The `seq_metadata[...]["file"]`
lookup is abstracted as a function from sequence id to file name; the
Python set of files is modelled by deduplicating the mapped list, whose
length is the set's cardinality. -/

def filesInCluster (fileOf : String → String) (cl : List SeqEntry) : List String :=
  (cl.map (fun s => fileOf s.id)).dedup

/-- The public filter (line 394: `if num_files >= 2`). -/
def publicClusters (fileOf : String → String) (clusters : List (List SeqEntry)) :
    List (List SeqEntry) :=
  clusters.filter (fun cl => decide (2 ≤ (filesInCluster fileOf cl).length))

/-- Concrete single-file cluster for the C6 witness. -/
def clC6 : List SeqEntry :=
  [⟨['C'], ['V'], ['J'], "s1"⟩]

/-! ### Mode dispatch
`analyze_public_clones` lines 286-299 resolve the clustering parameters
from the mode, and lines 364-378 dispatch to exact grouping or to
`cluster_similar_cdr3`.  The Python defaults of the function signature
(lines 268-269) are threshold 0.85 and no mismatch cap. -/

inductive ClusterMode
  | exact
  | lenient
  | custom
deriving DecidableEq

def resolveParams (mode : ClusterMode) (thr : ℚ) (mam : Option Nat) : ℚ × Option Nat :=
  match mode with
  | .exact => ((1 : ℚ), some 0)
  | .lenient => ((0.85 : ℚ), some 2)
  | .custom => (thr, mam)

def clustersFor (mode : ClusterMode) (thr : ℚ) (mam : Option Nat)
    (entries : List SeqEntry) : List (List SeqEntry) :=
  match mode with
  | .exact => (exactClusters entries []).map Prod.snd
  | _ => cluster_similar_cdr3
      ⟨(resolveParams mode thr mam).1, (resolveParams mode thr mam).2, false⟩ entries

/-- Sequences for the C7 counterexample: length-4 CDR3s at edit distance 2,
hence similarity 0.5. -/
def seqC7a : SeqEntry :=
  ⟨['A', 'A', 'A', 'A'], ['V'], ['J'], "a"⟩

def seqC7b : SeqEntry :=
  ⟨['A', 'A', 'B', 'B'], ['V'], ['J'], "b"⟩

/-! ### Heatmap visualization data
`generate_visualization_data` (lines 145-188).  Only the heatmap block is
modelled; the clone records carry the fields the block reads. -/

/-- A public-clone record as consumed by `generate_visualization_data`:
representative CDR3, sorted member file list, member sequence ids. -/
structure PClone where
  cdr3_aa : List Char
  patients : List String
  sequences : List String
deriving DecidableEq

/-- Matching of a pattern against the start of a character list (helper
for the Python substring test). -/
def isPre : List Char → List Char → Bool
  | [], _ => true
  | _ :: _, [] => false
  | a :: as, b :: bs => a = b && isPre as bs

/-- The Python substring test `needle in hay` on strings: `needle` occurs
contiguously somewhere in `hay`. -/
def occursIn (needle : List Char) : List Char → Bool
  | [] => isPre needle []
  | c :: rest => isPre needle (c :: rest) || occursIn needle rest

/-- Python string comparison: lexicographic by code point. -/
def lexLe : List Char → List Char → Bool
  | [], _ => true
  | _ :: _, [] => false
  | a :: as, b :: bs => if a = b then lexLe as bs else decide (a < b)

def pyStrLe (a b : String) : Bool :=
  lexLe a.data b.data

/-- Python `sorted` on strings: the sorted permutation of the input under
the lexicographic order (modelled by insertion sort, which produces the
same sorted permutation). -/
def pySorted (l : List String) : List String :=
  l.insertionSort (fun a b => pyStrLe a b = true)

/-- One presence row of the heatmap (lines 175-186): 1 when the patient is
in the clone's patient list, else 0. -/
def presenceRow (pats : List String) (c : PClone) : List Nat :=
  pats.map (fun pt => if pt ∈ c.patients then 1 else 0)

/-- One frequency row (lines 175-186): when the patient is present, the
code counts the member sequence ids that contain the patient name as a
substring (`if patient in s`, line 181); otherwise 0. -/
def frequencyRow (pats : List String) (c : PClone) : List Nat :=
  pats.map (fun pt =>
    if pt ∈ c.patients then (c.sequences.filter (fun s => occursIn pt.data s.data)).length
    else 0)

/-- The heatmap block of the visualization payload. -/
structure HeatmapData where
  clones : List (List Char)
  patients : List String
  matrix : List (List Nat)
  frequencies : List (List Nat)
deriving DecidableEq

/-- The heatmap construction (lines 159-188): empty payload when there are
no public clones (line 166), otherwise patients sorted lexicographically
(line 170; Python `sorted` is modelled by insertion sort over the string
order, the same sorted permutation), truncated clone labels (line 172) and
the presence/frequency matrices. -/
def heatmapOf (public_clones : List PClone) (all_patients : List String) : HeatmapData :=
  if public_clones = [] then ⟨[], [], [], []⟩
  else
    ⟨public_clones.map (fun c => c.cdr3_aa.take 15 ++ ['.', '.', '.']),
     pySorted all_patients,
     public_clones.map (fun c => presenceRow (pySorted all_patients) c),
     public_clones.map (fun c => frequencyRow (pySorted all_patients) c)⟩

/-- The source-file component of a compound sequence id
(`seq_id.split('|||', 1)`, lines 330-332): the text after the first
occurrence of the three-character delimiter, or the fallback file name when
the delimiter is absent (line 334 with its default). -/
def afterDelim : List Char → Option (List Char)
  | [] => none
  | c :: rest =>
      if isPre ['|', '|', '|'] (c :: rest) then some (rest.drop 2) else afterDelim rest

def fileOfSeqId (id : List Char) : List Char :=
  match afterDelim id with
  | some f => f
  | none => "unknown.fasta".data

/-- The clone of the C9 failing input: patients "A" and "AB", one member
sequence from each. -/
def cloneC9 : PClone :=
  ⟨['C', 'A', 'R'], ["A", "AB"], ["s1|||A", "s2|||AB"]⟩

/-! ### Threshold negotiation
`PipelineRunner.calculate_threshold` (pipeline_runner.py lines 329-397) and
its use in `run` (lines 934-937). -/

/-- Outcome of reading and JSON-parsing one line from stdin, as far as the
response handler (lines 375-392) distinguishes inputs.
`noLine` is an empty read (end of input) or a read error (lines 367-373);
`badJson` is a line on which `json.loads` raises `JSONDecodeError`
(caught at line 388); `nonObject` is valid JSON that is not an object, so
`response.get` raises `AttributeError`, which the inner
`except json.JSONDecodeError` does NOT catch; `obj typ value` is a JSON
object, where `typ` is the `type` field when that field is a string (a
missing or non-string `type` compares unequal to both expected tags, which
`none` also models), and `value` models the `value` field: `none` when
absent, `some none` when present but `float()` raises on it, and
`some (some v)` when `float()` returns `v`. -/
inductive HostLine
  | noLine
  | badJson
  | nonObject
  | obj (typ : Option String) (value : Option (Option ℚ))
deriving DecidableEq

/-- The response handling of `calculate_threshold` (lines 375-397): `none`
means the user cancelled (the Python method returns `None` and sets
`self.cancelled`); otherwise the resolved threshold.  The outer
`except Exception` (lines 394-396) returns the fixed default 0.1 and is
reached exactly when handling the line raises outside `json.loads`. -/
def negotiate (calculated : ℚ) : HostLine → Option ℚ
  | .noLine => some calculated
  | .badJson => some calculated
  | .nonObject => some (0.1 : ℚ)
  | .obj typ value =>
      if typ = some "threshold_response" then
        match value with
        | none => some calculated
        | some none => some (0.1 : ℚ)
        | some (some v) => some v
      else if typ = some "cancel" then none
      else some calculated

/-- Step 7 of `PipelineRunner.run` (lines 934-937): a `None` threshold
aborts the run with `complete{success=false}`, any other resolved value is
carried into the clonality stage. -/
inductive ThresholdStep
  | abortCancelled
  | proceed (t : ℚ)
deriving DecidableEq

def step7 (calculated : ℚ) (line : HostLine) : ThresholdStep :=
  match negotiate calculated line with
  | none => .abortCancelled
  | some t => .proceed t

/-! ### Pipeline controller
`PipelineRunner.run` (pipeline_runner.py lines 892-964).  The fatal stages
perform file and external-process work outside this core; each is
abstracted by the NDJSON messages it emits (stage bodies never emit
`complete` — only `run` and `main` do) and its boolean result.  The two
tree stages are modelled faithfully from their bodies, since claim C8 is
about exactly their failure behaviour. -/

/-- The NDJSON messages of `NDJSONEmitter`. -/
inductive Msg
  | progress (stage : String) (percent : Nat) (text : String)
  | log (level : String) (text : String)
  | result (artifact : String)
  | complete (success : Bool) (error : Option String)
deriving DecidableEq

/-- Outcome of the tree-building stage body (`build_trees`,
lines 431-557): the germline-pass file may be absent (early warn + return,
lines 440-442), the R script may exit non-zero (lines 543-545), it may
succeed with some number of trees (lines 548-552), or the body may raise
(lines 554-556). -/
inductive TreeOutcome
  | noGermFile
  | scriptFail (stderr : String)
  | built (n : Nat)
  | raised (msg : String)
deriving DecidableEq

/-- Emissions and return value of `build_trees`: every branch returns
`True` (the stage is non-fatal by construction) and every failing branch
logs a warning. -/
def build_trees (o : TreeOutcome) : List Msg × Bool :=
  match o with
  | .noGermFile =>
      ([.progress "trees" 70 "Building phylogenetic trees...",
        .log "warn" "Germline pass file not found, skipping tree building"], true)
  | .scriptFail s =>
      ([.progress "trees" 70 "Building phylogenetic trees...",
        .log "warn" ("Tree building failed: " ++ s)], true)
  | .built n =>
      ([.progress "trees" 70 "Building phylogenetic trees...",
        .log "info" ("Built " ++ toString n ++ " phylogenetic trees")], true)
  | .raised m =>
      ([.progress "trees" 70 "Building phylogenetic trees...",
        .log "warn" ("Tree building failed (non-fatal): " ++ m)], true)

/-- Outcome of the tree-visualization stage body (`visualize_trees`,
lines 558-590): the R script ran (with its exit status, stderr and whether
any images were produced), or the body raised. -/
inductive VizOutcome
  | ran (rcZero : Bool) (stderr : String) (hasImages : Bool) (n : Nat)
  | raised (msg : String)
deriving DecidableEq

/-- Emissions and return value of `visualize_trees` (lines 558-590): warn
on a non-zero exit (lines 577-578), emit the image result when images
exist (lines 581-584), always return `True`; an exception logs a warning
and returns `True` (lines 588-590). -/
def visualize_trees (o : VizOutcome) : List Msg × Bool :=
  match o with
  | .raised m =>
      ([.progress "visualize" 85 "Generating tree visualizations...",
        .log "warn" ("Tree visualization failed (non-fatal): " ++ m)], true)
  | .ran rcZero s hasImages n =>
      ([.progress "visualize" 85 "Generating tree visualizations..."] ++
        (if rcZero then []
         else [.log "warn" ("Tree visualization returned non-zero: " ++ s)]) ++
        (if hasImages then
          [.result "tree_images",
           .log "info" ("Generated " ++ toString n ++ " tree visualization(s)")]
         else []), true)

/-- Abstract per-run stage outcomes for `PipelineRunner.run`.  The
cancellation flag is set only when negotiation returns `None`, which also
makes `run` abort at step 7, so the mid-run `check_cancelled` calls are
no-ops on every path modelled here (before negotiation the flag is always
false). -/
structure RunEnv where
  loadTrace : List Msg
  load_ok : Bool
  cleanTrace : List Msg
  clean_ok : Bool
  setupTrace : List Msg
  setup_ok : Bool
  combineTrace : List Msg
  combine_ok : Bool
  blastDbTrace : List Msg
  blastDb_ok : Bool
  igblastTrace : List Msg
  igblast_ok : Bool
  thresholdTrace : List Msg
  threshold : Option ℚ
  clonalityTrace : List Msg
  clonality_ok : Bool
  trees : TreeOutcome
  viz : VizOutcome
  resultsTrace : List Msg
  results_ok : Bool

/-- The message trace of `PipelineRunner.run` (lines 892-964): each fatal
stage aborts with `complete{success=false, error}` when it returns false;
the two tree stages are invoked without consulting their return values
(lines 948-952); success ends with the final progress message and
`complete{success=true}` (lines 960-962). -/
def run (e : RunEnv) : List Msg :=
  e.loadTrace ++
  if e.load_ok = false then [.complete false (some "Failed to load FASTA files")] else
  e.cleanTrace ++
  if e.clean_ok = false then [.complete false (some "Failed to clean FASTA files")] else
  e.setupTrace ++
  if e.setup_ok = false then [.complete false (some "Failed to setup databases")] else
  e.combineTrace ++
  if e.combine_ok = false then [.complete false (some "Failed to combine FASTA files")] else
  e.blastDbTrace ++
  if e.blastDb_ok = false then [.complete false (some "Failed to build BLAST databases")] else
  e.igblastTrace ++
  if e.igblast_ok = false then [.complete false (some "IgBLAST analysis failed")] else
  e.thresholdTrace ++
  match e.threshold with
  | none => [.complete false (some "Cancelled by user")]
  | some _ =>
    e.clonalityTrace ++
    if e.clonality_ok = false then [.complete false (some "Clonality analysis failed")] else
    (build_trees e.trees).1 ++
    (visualize_trees e.viz).1 ++
    e.resultsTrace ++
    if e.results_ok = false then [.complete false (some "Failed to load results")] else
    [.progress "complete" 100 "Analysis complete!", .complete true none]

/-- The tree-building stage fails when the R script exits non-zero or the
body raises. -/
def treeStageFails : TreeOutcome → Prop
  | .scriptFail _ => True
  | .raised _ => True
  | _ => False

/-- The tree-visualization stage fails when the body raises or the R
script exits non-zero. -/
def vizStageFails : VizOutcome → Prop
  | .raised _ => True
  | .ran rcZero _ _ _ => rcZero = false

/-- Concrete environment for the C8 witness: all fatal stages succeed and
the tree-building body raises. -/
def envC8 : RunEnv :=
  ⟨[], true, [], true, [], true, [], true, [], true, [], true, [],
    some (1 / 10 : ℚ), [], true, .raised "boom", .ran true "" false 0, [], true⟩

/-! The theorems: shared lemmas about the embedded definitions, and one main
result (with counterexample and witness theorems where applicable) for each
verified property. -/

theorem rowSeg_eq_map_range (f : Nat → Nat) :
    ∀ (len j : Nat), rowSeg f j len = (List.range len).map (fun k => f (j + k)) := by
  intro len
  induction len with
  | zero => intro j; rfl
  | succ n ih =>
      intro j
      rw [List.range_succ_eq_map, List.map_cons, List.map_map]
      have h1 : rowSeg f j (n + 1) = f j :: rowSeg f (j + 1) n := rfl
      rw [h1, ih (j + 1)]
      congr 1
      apply List.map_congr_left
      intro k _
      simp only [Function.comp_apply]
      congr 1
      omega

theorem levD_zero_right (s1 s2 : List Char) : ∀ i, levD s1 s2 i 0 = i := by
  intro i
  cases i with
  | zero => simp [levD]
  | succ n => simp [levD]

theorem levD_zero_left (s1 s2 : List Char) (j : Nat) : levD s1 s2 0 j = j := by
  simp [levD]

theorem rowSeg_range (s1 s2 : List Char) (m : Nat) :
    rowSeg (levD s1 s2 0) 0 m = List.range m := by
  rw [rowSeg_eq_map_range]
  have h : ∀ k, levD s1 s2 0 (0 + k) = k := by
    intro k
    rw [Nat.zero_add, levD_zero_left]
  calc (List.range m).map (fun k => levD s1 s2 0 (0 + k))
      = (List.range m).map (fun k => k) := List.map_congr_left (fun k _ => h k)
    _ = List.range m := List.map_id (List.range m)

theorem rowSeg_getLastD (f : Nat → Nat) (d : Nat) :
    ∀ (len j : Nat), 0 < len → (rowSeg f j len).getLastD d = f (j + len - 1) := by
  intro len
  induction len with
  | zero => intro j h; omega
  | succ n ih =>
      intro j _
      cases n with
      | zero => simp [rowSeg]
      | succ k =>
          have step : rowSeg f j (k + 1 + 1) = f j :: rowSeg f (j + 1) (k + 1) := rfl
          rw [step, List.getLastD_cons]
          have tailne : rowSeg f (j + 1) (k + 1) = f (j + 1) :: rowSeg f (j + 2) k := rfl
          rw [show (rowSeg f (j + 1) (k + 1)).getLastD (f j)
                = (rowSeg f (j + 1) (k + 1)).getLastD d from ?_]
          · rw [ih (j + 1) (Nat.succ_pos k)]
            congr 1
            omega
          · rw [tailne, List.getLastD_cons, List.getLastD_cons]

/-- Reading a list at position `j` when the drop at `j` is known. -/
theorem getD_of_drop {l : List Char} :
    ∀ (j : Nat) (c : Char) (rest : List Char), l.drop j = c :: rest → l.getD j ' ' = c := by
  induction l with
  | nil => intro j c rest h; simp at h
  | cons a as ih =>
      intro j c rest h
      cases j with
      | zero => simp at h; simp [List.getD, h.1]
      | succ n =>
          simp only [List.drop_succ_cons] at h
          simpa [List.getD] using ih n c rest h

theorem drop_succ_of_drop {l : List Char} :
    ∀ (j : Nat) (c : Char) (rest : List Char), l.drop j = c :: rest → l.drop (j + 1) = rest := by
  induction l with
  | nil => intro j c rest h; simp at h
  | cons a as ih =>
      intro j c rest h
      cases j with
      | zero => simp at h; simp [h.2]
      | succ n =>
          simp only [List.drop_succ_cons] at h
          simpa using ih n c rest h

theorem dpRow_spec (s1 s2 : List Char) (i : Nat) :
    ∀ (cs : List Char) (j : Nat), cs = s2.drop j →
      dpRow (s1.getD i ' ') cs (rowSeg (levD s1 s2 i) j (cs.length + 1)) (levD s1 s2 (i + 1) j) =
        rowSeg (levD s1 s2 (i + 1)) (j + 1) cs.length := by
  intro cs
  induction cs with
  | nil => intro j _; rfl
  | cons c2 cs ih =>
      intro j hdrop
      have hc2 : s2.getD j ' ' = c2 := getD_of_drop j c2 cs hdrop.symm
      have hcs : s2.drop (j + 1) = cs := drop_succ_of_drop j c2 cs hdrop.symm
      have hrow : rowSeg (levD s1 s2 i) j ((c2 :: cs).length + 1) =
          levD s1 s2 i j :: rowSeg (levD s1 s2 i) (j + 1) (cs.length + 1) := rfl
      have hrow2 : rowSeg (levD s1 s2 i) (j + 1) (cs.length + 1) =
          levD s1 s2 i (j + 1) :: rowSeg (levD s1 s2 i) (j + 2) cs.length := rfl
      rw [hrow, hrow2]
      show (let v := min (levD s1 s2 i (j + 1) + 1)
              (min (levD s1 s2 (i + 1) j + 1)
                (levD s1 s2 i j + (if s1.getD i ' ' = c2 then 0 else 1)))
            v :: dpRow (s1.getD i ' ') cs
              (levD s1 s2 i (j + 1) :: rowSeg (levD s1 s2 i) (j + 2) cs.length) v) =
          rowSeg (levD s1 s2 (i + 1)) (j + 1) (c2 :: cs).length
      have hv : min (levD s1 s2 i (j + 1) + 1)
            (min (levD s1 s2 (i + 1) j + 1)
              (levD s1 s2 i j + (if s1.getD i ' ' = c2 then 0 else 1))) =
          levD s1 s2 (i + 1) (j + 1) := by
        rw [show levD s1 s2 (i + 1) (j + 1) = min (levD s1 s2 i (j + 1) + 1)
              (min (levD s1 s2 (i + 1) j + 1)
                (levD s1 s2 i j + (if s1.getD i ' ' = s2.getD j ' ' then 0 else 1)))
            from by rw [levD], hc2]
      simp only [hv]
      have hseg : rowSeg (levD s1 s2 (i + 1)) (j + 1) (c2 :: cs).length =
          levD s1 s2 (i + 1) (j + 1) :: rowSeg (levD s1 s2 (i + 1)) (j + 2) cs.length := rfl
      rw [hseg]
      have := ih (j + 1) hcs.symm
      rw [show rowSeg (levD s1 s2 i) (j + 1) (cs.length + 1) =
            levD s1 s2 i (j + 1) :: rowSeg (levD s1 s2 i) (j + 2) cs.length from rfl] at this
      rw [this]

theorem dpLoop_spec (s1 s2 : List Char) :
    ∀ (cs : List Char) (i : Nat), cs = s1.drop i → i ≤ s1.length →
      dpLoop s2 cs (rowSeg (levD s1 s2 i) 0 (s2.length + 1)) i =
        rowSeg (levD s1 s2 s1.length) 0 (s2.length + 1) := by
  intro cs
  induction cs with
  | nil =>
      intro i hdrop hle
      have : s1.length ≤ i := by
        by_contra hlt
        push_neg at hlt
        have := List.drop_eq_nil_iff.mp hdrop.symm
        omega
      have hi : i = s1.length := le_antisymm hle this
      rw [dpLoop, hi]
  | cons c1 cs ih =>
      intro i hdrop hle
      have hc1 : s1.getD i ' ' = c1 := getD_of_drop i c1 cs hdrop.symm
      have hcs : s1.drop (i + 1) = cs := drop_succ_of_drop i c1 cs hdrop.symm
      have hlt : i < s1.length := by
        by_contra hge
        push_neg at hge
        rw [List.drop_eq_nil_iff.mpr hge] at hdrop
        exact List.noConfusion hdrop
      rw [dpLoop]
      have hinner := dpRow_spec s1 s2 i s2 0 (by simp)
      rw [levD_zero_right] at hinner
      have hnext : (i + 1) :: dpRow c1 s2 (rowSeg (levD s1 s2 i) 0 (s2.length + 1)) (i + 1) =
          rowSeg (levD s1 s2 (i + 1)) 0 (s2.length + 1) := by
        rw [← hc1, hinner]
        have : rowSeg (levD s1 s2 (i + 1)) 0 (s2.length + 1) =
            levD s1 s2 (i + 1) 0 :: rowSeg (levD s1 s2 (i + 1)) 1 s2.length := rfl
        rw [this, levD_zero_right]
      rw [hnext]
      exact ih (i + 1) hcs.symm hlt

theorem levenshteinRun_eq (s1 s2 : List Char) :
    levenshteinRun s1 s2 = levD s1 s2 s1.length s2.length := by
  unfold levenshteinRun
  by_cases h : s2.length = 0
  · rw [if_pos h, h, levD_zero_right]
  · rw [if_neg h]
    rw [← rowSeg_range s1 s2 (s2.length + 1)]
    rw [dpLoop_spec s1 s2 s1 0 (by simp) (Nat.zero_le _)]
    rw [rowSeg_getLastD _ _ (s2.length + 1) 0 (Nat.succ_pos _)]
    congr 1
    omega

theorem levD_symm (s1 s2 : List Char) : ∀ i j, levD s1 s2 i j = levD s2 s1 j i := by
  intro i
  induction i with
  | zero =>
      intro j
      rw [levD_zero_left, levD_zero_right]
  | succ n ih =>
      intro j
      induction j with
      | zero =>
          rw [levD_zero_right, levD_zero_left]
      | succ m ihj =>
          rw [show levD s1 s2 (n + 1) (m + 1) = min (levD s1 s2 n (m + 1) + 1)
                (min (levD s1 s2 (n + 1) m + 1)
                  (levD s1 s2 n m + (if s1.getD n ' ' = s2.getD m ' ' then 0 else 1)))
              from by rw [levD]]
          rw [show levD s2 s1 (m + 1) (n + 1) = min (levD s2 s1 m (n + 1) + 1)
                (min (levD s2 s1 (m + 1) n + 1)
                  (levD s2 s1 m n + (if s2.getD m ' ' = s1.getD n ' ' then 0 else 1)))
              from by rw [levD]]
          rw [← ihj, ← ih (m + 1), ← ih m]
          have hcost : (if s2.getD m ' ' = s1.getD n ' ' then 0 else 1) =
              (if s1.getD n ' ' = s2.getD m ' ' then 0 else 1) := by
            by_cases hc : s1.getD n ' ' = s2.getD m ' '
            · rw [if_pos hc, if_pos hc.symm]
            · rw [if_neg hc, if_neg (fun hh => hc hh.symm)]
          rw [hcost, min_left_comm]

/-- The source dynamic program computes the standard edit distance. -/
theorem levenshtein_distance_eq (s1 s2 : List Char) :
    levenshtein_distance s1 s2 = levD s1 s2 s1.length s2.length := by
  unfold levenshtein_distance
  by_cases h : s1.length < s2.length
  · rw [if_pos h, levenshteinRun_eq, levD_symm]
  · rw [if_neg h, levenshteinRun_eq]

theorem levenshtein_distance_symm (s1 s2 : List Char) :
    levenshtein_distance s1 s2 = levenshtein_distance s2 s1 := by
  rw [levenshtein_distance_eq, levenshtein_distance_eq, levD_symm]

/-- C4: for every pair of non-empty CDR3 peptide strings, the computed
similarity equals `1 − (edit_distance / max_len + length_penalty × 0.5)`
floored at 0, with the standard edit distance and the spec's length
penalty; in particular for CDR3s of lengths 10 and 15 at edit distance 5
the similarity is exactly 1/2, below 0.85. -/
theorem claim_C4_similarity_formula :
    (∀ s1 s2 : List Char, s1 ≠ [] → s2 ≠ [] →
        calculate_aa_similarity s1 s2 = claimedSimilarity s1 s2) ∧
      standardEditDistance exLen10 exLen15 = 5 ∧
      calculate_aa_similarity exLen10 exLen15 = 1 / 2 ∧
      (1 / 2 : ℚ) < 0.85 := by
  refine ⟨?_, ?_, ?_, by norm_num⟩
  · intro s1 s2 h1 h2
    have hne : ¬ (s1 = [] ∨ s2 = []) := by
      rintro (h | h)
      · exact h1 h
      · exact h2 h
    unfold calculate_aa_similarity claimedSimilarity standardEditDistance
    rw [if_neg hne, levenshtein_distance_eq]
  · rw [standardEditDistance, ← levenshtein_distance_eq]
    decide
  · have hlev : levenshtein_distance exLen10 exLen15 = 5 := by decide
    have h10 : exLen10.length = 10 := by decide
    have h15 : exLen15.length = 15 := by decide
    have hne : ¬ (exLen10 = [] ∨ exLen15 = []) := by decide
    unfold calculate_aa_similarity
    rw [if_neg hne, hlev, h10, h15]
    norm_num

/-- Witness for C4: the universally quantified part applied to a concrete
pair of non-empty strings. -/
theorem claim_C4_witness :
    (['A'] : List Char) ≠ [] ∧
      calculate_aa_similarity ['A'] ['C'] = claimedSimilarity ['A'] ['C'] :=
  ⟨by decide, claim_C4_similarity_formula.1 ['A'] ['C'] (by decide) (by decide)⟩

/-- C10: the CDR3 similarity is symmetric, always lies in `[0, 1]`, and is
`0` whenever either input string is empty. -/
theorem claim_C10_similarity_symm_bounded :
    (∀ s1 s2 : List Char, calculate_aa_similarity s1 s2 = calculate_aa_similarity s2 s1) ∧
      (∀ s1 s2 : List Char,
        0 ≤ calculate_aa_similarity s1 s2 ∧ calculate_aa_similarity s1 s2 ≤ 1) ∧
      (∀ s : List Char, calculate_aa_similarity [] s = 0 ∧ calculate_aa_similarity s [] = 0) := by
  refine ⟨?_, ?_, ?_⟩
  · intro s1 s2
    unfold calculate_aa_similarity
    by_cases h : s1 = [] ∨ s2 = []
    · rw [if_pos h, if_pos (Or.symm h)]
    · have h2 : ¬ (s2 = [] ∨ s1 = []) := fun hc => h (Or.symm hc)
      rw [if_neg h, if_neg h2, levenshtein_distance_symm s1 s2,
        Nat.max_comm s1.length s2.length,
        show ((s1.length : Int) - (s2.length : Int)).natAbs =
            ((s2.length : Int) - (s1.length : Int)).natAbs from by
          rw [← Int.natAbs_neg, neg_sub]]
  · intro s1 s2
    unfold calculate_aa_similarity
    by_cases h : s1 = [] ∨ s2 = []
    · rw [if_pos h]
      norm_num
    · rw [if_neg h]
      constructor
      · exact le_max_left 0 _
      · refine max_le (by norm_num) ((sub_le_self 1 ?_).trans (by norm_num))
        refine add_nonneg (div_nonneg (Nat.cast_nonneg _) (Nat.cast_nonneg _))
          (mul_nonneg ?_ (by norm_num))
        split
        · exact div_nonneg (Nat.cast_nonneg _) (Nat.cast_nonneg _)
        · exact le_refl 0
  · intro s
    constructor
    · unfold calculate_aa_similarity
      rw [if_pos (Or.inl rfl)]
    · unfold calculate_aa_similarity
      rw [if_pos (Or.inr rfl)]

/-- C1 counterexample: in lenient mode (threshold 0.85, cap 2) a candidate
with the seed's V and J families, edit distance 3 and similarity exactly
0.85 ≥ 0.85 is still placed in a separate cluster — the absolute cap
overrides the similarity rule, so the claimed disjunction fails. -/
theorem claim_C1_counterexample :
    cluster_similar_cdr3 ⟨0.85, some 2, false⟩ [seedC1, candC1] = [[seedC1], [candC1]] ∧
      (0.85 : ℚ) ≤ calculate_aa_similarity seedC1.cdr3 candC1.cdr3 ∧
      familyOf seedC1.v = familyOf candC1.v ∧
      familyOf seedC1.j = familyOf candC1.j ∧
      ¬ levenshtein_distance seedC1.cdr3 candC1.cdr3 ≤ 2 := by
  refine ⟨by decide, ?_, by decide, by decide, by decide⟩
  have hlev : levenshtein_distance seedC1.cdr3 candC1.cdr3 = 3 := by decide
  have hne : ¬ (seedC1.cdr3 = [] ∨ candC1.cdr3 = []) := by decide
  have h1 : seedC1.cdr3.length = 20 := by decide
  have h2 : candC1.cdr3.length = 20 := by decide
  unfold calculate_aa_similarity
  rw [if_neg hne, hlev, h1, h2]
  norm_num

/-- C1 (amended): in lenient mode (`max_aa_mismatches = 2` set by
`analyze_public_clones`), an unassigned candidate joins the seed's open
cluster iff it has the seed's V family and J family and the edit distance
between their CDR3 peptides is ≤ 2; the 0.85 similarity threshold is never
consulted (any threshold gives the same test). -/
theorem claim_C1_lenient_join_test :
    ∀ (thr : ℚ) (seed cand : SeqEntry),
      joinsSeed ⟨thr, some 2, false⟩ seed cand = true ↔
        (familyOf seed.v = familyOf cand.v ∧ familyOf seed.j = familyOf cand.j ∧
          levenshtein_distance seed.cdr3 cand.cdr3 ≤ 2) := by
  intro thr seed cand
  unfold joinsSeed
  by_cases h : familyOf seed.v = familyOf cand.v ∧ familyOf seed.j = familyOf cand.j
  · rw [if_pos h]
    simp [h.1, h.2]
  · rw [if_neg h]
    simp only [Bool.false_eq_true, false_iff]
    intro hc
    exact h ⟨hc.1, hc.2.1⟩

/-! ### The greedy scan partitions its input
Auxiliary facts about `gatherMembers`/`clusterScan` used for the partition
property (claim C2). -/

theorem gatherMembers_subset_snd (p : ClusterParams) (seed : SeqEntry) :
    ∀ (rest : List SeqEntry) (assigned : List String),
      assigned ⊆ (gatherMembers p seed rest assigned).2 := by
  intro rest
  induction rest with
  | nil => intro assigned x hx; exact hx
  | cons c rest ih =>
      intro assigned
      simp only [gatherMembers]
      by_cases h1 : c.id ∈ assigned
      · rw [if_pos h1]
        exact ih assigned
      · rw [if_neg h1]
        by_cases h2 : joinsSeed p seed c = true
        · rw [if_pos h2]
          exact (List.subset_cons_self c.id assigned).trans (ih (c.id :: assigned))
        · rw [if_neg h2]
          exact ih assigned

theorem gatherMembers_snd_subset (p : ClusterParams) (seed : SeqEntry) :
    ∀ (rest : List SeqEntry) (assigned : List String),
      (gatherMembers p seed rest assigned).2 ⊆
        (gatherMembers p seed rest assigned).1.map (fun s => s.id) ++ assigned := by
  intro rest
  induction rest with
  | nil =>
      intro assigned x hx
      rw [show gatherMembers p seed [] assigned = ([], assigned) from rfl] at hx ⊢
      simpa using hx
  | cons c rest ih =>
      intro assigned
      simp only [gatherMembers]
      by_cases h1 : c.id ∈ assigned
      · rw [if_pos h1]
        exact ih assigned
      · rw [if_neg h1]
        by_cases h2 : joinsSeed p seed c = true
        · rw [if_pos h2]
          refine (ih (c.id :: assigned)).trans ?_
          simp only [List.map_cons]
          exact List.perm_middle.subset
        · rw [if_neg h2]
          exact ih assigned

theorem gatherMembers_fst_subset (p : ClusterParams) (seed : SeqEntry) :
    ∀ (rest : List SeqEntry) (assigned : List String),
      (gatherMembers p seed rest assigned).1 ⊆ rest := by
  intro rest
  induction rest with
  | nil =>
      intro assigned x hx
      rw [show gatherMembers p seed [] assigned = ([], assigned) from rfl] at hx
      exact absurd hx (by simp)
  | cons c rest ih =>
      intro assigned
      simp only [gatherMembers]
      by_cases h1 : c.id ∈ assigned
      · rw [if_pos h1]
        exact (ih assigned).trans (List.subset_cons_self c rest)
      · rw [if_neg h1]
        by_cases h2 : joinsSeed p seed c = true
        · rw [if_pos h2]
          exact List.cons_subset_cons c (ih (c.id :: assigned))
        · rw [if_neg h2]
          exact (ih assigned).trans (List.subset_cons_self c rest)

/-- The inner scan splits the unassigned part of the remaining sequences
into the members it picks and the sequences still unassigned afterwards. -/
theorem gatherMembers_split (p : ClusterParams) (seed : SeqEntry) :
    ∀ (rest : List SeqEntry) (assigned : List String),
      (rest.map (fun s => s.id)).Nodup →
      List.Perm
        ((gatherMembers p seed rest assigned).1 ++
          rest.filter (fun s => decide (s.id ∉ (gatherMembers p seed rest assigned).2)))
        (rest.filter (fun s => decide (s.id ∉ assigned))) := by
  intro rest
  induction rest with
  | nil => intro assigned _; simp [gatherMembers]
  | cons c rest ih =>
      intro assigned hnd
      have hcrest : c.id ∉ rest.map (fun s => s.id) := (List.nodup_cons.mp hnd).1
      have hnd' : (rest.map (fun s => s.id)).Nodup := (List.nodup_cons.mp hnd).2
      simp only [gatherMembers]
      by_cases h1 : c.id ∈ assigned
      · rw [if_pos h1]
        have hcin : c.id ∈ (gatherMembers p seed rest assigned).2 :=
          gatherMembers_subset_snd p seed rest assigned h1
        rw [List.filter_cons, if_neg (by simp [hcin]), List.filter_cons, if_neg (by simp [h1])]
        exact ih assigned hnd'
      · rw [if_neg h1]
        by_cases h2 : joinsSeed p seed c = true
        · rw [if_pos h2]
          have hcin : c.id ∈ (gatherMembers p seed rest (c.id :: assigned)).2 :=
            gatherMembers_subset_snd p seed rest (c.id :: assigned) (List.mem_cons_self c.id assigned)
          rw [List.filter_cons, if_neg (by simp [hcin]), List.filter_cons, if_pos (by simp [h1])]
          simp only [List.cons_append]
          refine List.Perm.cons c ?_
          refine (ih (c.id :: assigned) hnd').trans ?_
          have : rest.filter (fun s => decide (s.id ∉ c.id :: assigned)) =
              rest.filter (fun s => decide (s.id ∉ assigned)) := by
            apply List.filter_congr
            intro s hs
            have hne : s.id ≠ c.id := by
              intro he
              exact hcrest (he ▸ List.mem_map_of_mem (fun t => t.id) hs)
            simp [List.mem_cons, hne]
          rw [this]
        · rw [if_neg h2]
          have hcout : c.id ∉ (gatherMembers p seed rest assigned).2 := by
            intro hin
            have := gatherMembers_snd_subset p seed rest assigned hin
            rcases List.mem_append.mp this with hm | hm
            · rcases List.mem_map.mp hm with ⟨s, hs, hsid⟩
              have : s ∈ rest := gatherMembers_fst_subset p seed rest assigned hs
              exact hcrest (hsid ▸ List.mem_map_of_mem (fun t => t.id) this)
            · exact h1 hm
          rw [List.filter_cons, if_pos (by simp [hcout]), List.filter_cons, if_pos (by simp [h1])]
          refine List.perm_middle.trans ?_
          exact List.Perm.cons c (ih assigned hnd')

/-- The clusters produced by the greedy scan are, taken together, a
permutation of the still-unassigned input sequences. -/
theorem clusterScan_flatten_perm (p : ClusterParams) :
    ∀ (seqs : List SeqEntry) (assigned : List String),
      (seqs.map (fun s => s.id)).Nodup →
      List.Perm (clusterScan p seqs assigned).flatten
        (seqs.filter (fun s => decide (s.id ∉ assigned))) := by
  intro seqs
  induction seqs with
  | nil => intro assigned _; simp [clusterScan]
  | cons s rest ih =>
      intro assigned hnd
      have hsrest : s.id ∉ rest.map (fun t => t.id) := (List.nodup_cons.mp hnd).1
      have hnd' : (rest.map (fun t => t.id)).Nodup := (List.nodup_cons.mp hnd).2
      simp only [clusterScan]
      by_cases h1 : s.id ∈ assigned
      · rw [if_pos h1, List.filter_cons, if_neg (by simp [h1])]
        exact ih assigned hnd'
      · rw [if_neg h1, List.filter_cons, if_pos (by simp [h1])]
        rw [show ((s :: (gatherMembers p s rest (s.id :: assigned)).1) ::
              clusterScan p rest (gatherMembers p s rest (s.id :: assigned)).2).flatten =
            s :: ((gatherMembers p s rest (s.id :: assigned)).1 ++
              (clusterScan p rest (gatherMembers p s rest (s.id :: assigned)).2).flatten)
          from rfl]
        refine List.Perm.cons s ?_
        refine (List.Perm.append_left _ (ih _ hnd')).trans ?_
        refine (gatherMembers_split p s rest (s.id :: assigned) hnd').trans ?_
        have : rest.filter (fun t => decide (t.id ∉ s.id :: assigned)) =
            rest.filter (fun t => decide (t.id ∉ assigned)) := by
          apply List.filter_congr
          intro t ht
          have hne : t.id ≠ s.id := by
            intro he
            exact hsrest (he ▸ List.mem_map_of_mem (fun u => u.id) ht)
          simp [List.mem_cons, hne]
        rw [this]

/-- The function `cluster_similar_cdr3` permutes its input into the clusters: nothing is
dropped and nothing is duplicated (for distinct sequence ids). -/
theorem cluster_flatten_perm (p : ClusterParams) (seqs : List SeqEntry)
    (h : (seqs.map (fun s => s.id)).Nodup) :
    List.Perm (cluster_similar_cdr3 p seqs).flatten seqs := by
  have hp := clusterScan_flatten_perm p seqs [] h
  simpa [cluster_similar_cdr3] using hp

theorem count_flatten_eq_sum {α : Type} [DecidableEq α] (a : α) :
    ∀ L : List (List α), L.flatten.count a = (L.map (List.count a)).sum := by
  intro L
  induction L with
  | nil => rfl
  | cons l L ih =>
      rw [show (l :: L).flatten = l ++ L.flatten from rfl, List.count_append, ih,
        List.map_cons, List.sum_cons]

/-- An element occurring exactly once in the concatenation of a list of
lists lies in exactly one of those lists. -/
theorem countP_mem_eq_one {α : Type} [DecidableEq α] (a : α) :
    ∀ L : List (List α), L.flatten.count a = 1 →
      L.countP (fun cl => decide (a ∈ cl)) = 1 := by
  intro L
  induction L with
  | nil => intro h; simp at h
  | cons l L ih =>
      intro h
      rw [show (l :: L).flatten = l ++ L.flatten from rfl, List.count_append] at h
      rw [List.countP_cons]
      by_cases hm : a ∈ l
      · have h1 : 0 < l.count a := List.count_pos_iff.mpr hm
        have h0 : L.flatten.count a = 0 := by omega
        have hP0 : L.countP (fun cl => decide (a ∈ cl)) = 0 := by
          rw [List.countP_eq_zero]
          intro cl hcl
          simp only [decide_eq_true_eq]
          intro hacl
          exact (List.count_eq_zero.mp h0) (List.mem_flatten.mpr ⟨cl, hcl, hacl⟩)
        simp [hP0, hm]
      · have h1 : l.count a = 0 := List.count_eq_zero.mpr hm
        simp only [hm, decide_False, if_false, add_zero]
        exact ih (by omega)

theorem rowEntry_id :
    ∀ (r : CloneRow) (e : SeqEntry), rowEntry r = some e → e.id = r.sequence_id := by
  intro r e h
  unfold rowEntry at h
  split at h
  · split at h
    · exact absurd h (by simp)
    · cases h
      rfl
  · exact absurd h (by simp)

theorem rowsToCluster_ids_sublist :
    ∀ rows : List CloneRow,
      List.Sublist ((rowsToCluster rows).map (fun s => s.id))
        (rows.map (fun r => r.sequence_id)) := by
  intro rows
  induction rows with
  | nil => simp [rowsToCluster]
  | cons r rows ih =>
      cases hre : rowEntry r with
      | none =>
          rw [show rowsToCluster (r :: rows) = rowsToCluster rows from by
            simp [rowsToCluster, List.filterMap_cons, hre]]
          exact ih.cons r.sequence_id
      | some e =>
          rw [show (rowsToCluster (r :: rows)).map (fun s => s.id) =
              r.sequence_id :: (rowsToCluster rows).map (fun s => s.id) from by
            simp [rowsToCluster, List.filterMap_cons, hre, rowEntry_id r e hre]]
          exact ih.cons₂ r.sequence_id

/-- C2 counterexample: a clone-table row whose CDR3 AA string is non-empty
but whose V call is missing is dropped by the ingestion filter, so it
belongs to no cluster at all — refuting "exactly one clone" for rows
qualified only by a non-empty CDR3. -/
theorem claim_C2_counterexample :
    rowC2.junction_aa = some ['C', 'A', 'R'] ∧ (['C', 'A', 'R'] : List Char) ≠ [] ∧
      rowsToCluster [rowC2] = [] ∧
      cluster_similar_cdr3 ⟨0.85, some 2, false⟩ (rowsToCluster [rowC2]) = [] :=
  ⟨rfl, by decide, rfl, rfl⟩

/-- C2 (amended): for every parameter choice, if the clone-table rows have
pairwise-distinct sequence ids, then every row whose CDR3 AA string, V call
and J call are all present and non-empty belongs to exactly one cluster,
and the clusters taken together are a permutation of exactly the retained
rows (partition: nothing dropped, nothing duplicated). -/
theorem claim_C2_partition :
    ∀ (p : ClusterParams) (rows : List CloneRow),
      (rows.map (fun r => r.sequence_id)).Nodup →
      List.Perm (cluster_similar_cdr3 p (rowsToCluster rows)).flatten (rowsToCluster rows) ∧
        ∀ r ∈ rows, ∀ e, rowEntry r = some e →
          (cluster_similar_cdr3 p (rowsToCluster rows)).countP (fun cl => decide (e ∈ cl)) = 1 := by
  intro p rows hnd
  have hids : ((rowsToCluster rows).map (fun s => s.id)).Nodup :=
    hnd.sublist (rowsToCluster_ids_sublist rows)
  have hperm := cluster_flatten_perm p (rowsToCluster rows) hids
  refine ⟨hperm, ?_⟩
  intro r hr e hre
  have hmem : e ∈ rowsToCluster rows := List.mem_filterMap.mpr ⟨r, hr, hre⟩
  have hnodupE : (rowsToCluster rows).Nodup := hids.of_map _
  have hcount : (rowsToCluster rows).count e = 1 := List.count_eq_one_of_mem hnodupE hmem
  have hflat : (cluster_similar_cdr3 p (rowsToCluster rows)).flatten.count e = 1 := by
    rw [hperm.count_eq]
    exact hcount
  exact countP_mem_eq_one e _ hflat

/-- Witness for C2: the partition theorem applied to two concrete rows with
distinct ids. -/
theorem claim_C2_partition_witness :
    List.Perm (cluster_similar_cdr3 ⟨(0.85 : ℚ), some 2, false⟩
        (rowsToCluster rowsC2W)).flatten (rowsToCluster rowsC2W) ∧
      ∀ r ∈ rowsC2W, ∀ e, rowEntry r = some e →
        (cluster_similar_cdr3 ⟨(0.85 : ℚ), some 2, false⟩
          (rowsToCluster rowsC2W)).countP (fun cl => decide (e ∈ cl)) = 1 :=
  claim_C2_partition ⟨(0.85 : ℚ), some 2, false⟩ rowsC2W (by decide)

theorem addToGroups_keys (k : List Char) (s : SeqEntry) :
    ∀ grps : List (List Char × List SeqEntry),
      (addToGroups k s grps).map Prod.fst =
        if k ∈ grps.map Prod.fst then grps.map Prod.fst else grps.map Prod.fst ++ [k] := by
  intro grps
  induction grps with
  | nil => simp [addToGroups]
  | cons g rest ih =>
      simp only [addToGroups]
      by_cases h : g.1 = k
      · rw [if_pos h]
        simp [h]
      · rw [if_neg h]
        simp only [List.map_cons, ih, List.mem_cons]
        by_cases h2 : k ∈ rest.map Prod.fst
        · rw [if_pos h2, if_pos (Or.inr h2)]
        · rw [if_neg h2, if_neg ?_]
          · simp
          · rintro (he | hm)
            · exact h he.symm
            · exact h2 hm

theorem addToGroups_wf (k : List Char) (s : SeqEntry) (hks : exactKey s = k) :
    ∀ grps : List (List Char × List SeqEntry),
      (∀ g ∈ grps, ∀ x ∈ g.2, exactKey x = g.1) →
      ∀ g ∈ addToGroups k s grps, ∀ x ∈ g.2, exactKey x = g.1 := by
  intro grps
  induction grps with
  | nil =>
      intro _ g hg x hx
      simp only [addToGroups, List.mem_singleton] at hg
      subst hg
      simp only [List.mem_singleton] at hx
      subst hx
      exact hks
  | cons g0 rest ih =>
      intro hwf g hg x hx
      simp only [addToGroups] at hg
      by_cases h : g0.1 = k
      · rw [if_pos h] at hg
        rcases List.mem_cons.mp hg with he | hm
        · subst he
          rcases List.mem_append.mp hx with hx1 | hx2
          · exact hwf g0 (List.mem_cons_self g0 rest) x hx1
          · simp only [List.mem_singleton] at hx2
            subst hx2
            rw [hks, h]
        · exact hwf g (List.mem_cons_of_mem g0 hm) x hx
      · rw [if_neg h] at hg
        rcases List.mem_cons.mp hg with he | hm
        · subst he
          exact hwf g (List.mem_cons_self g rest) x hx
        · exact ih (fun g1 hg1 => hwf g1 (List.mem_cons_of_mem g0 hg1)) g hm x hx

theorem addToGroups_nodup_keys (k : List Char) (s : SeqEntry)
    (grps : List (List Char × List SeqEntry)) (h : (grps.map Prod.fst).Nodup) :
    ((addToGroups k s grps).map Prod.fst).Nodup := by
  rw [addToGroups_keys]
  by_cases h2 : k ∈ grps.map Prod.fst
  · rw [if_pos h2]
    exact h
  · rw [if_neg h2]
    simp [List.nodup_append, h, h2]

theorem mem_addToGroups (k : List Char) (s x : SeqEntry) :
    ∀ grps : List (List Char × List SeqEntry),
      (∃ g ∈ addToGroups k s grps, x ∈ g.2) ↔ x = s ∨ ∃ g ∈ grps, x ∈ g.2 := by
  intro grps
  induction grps with
  | nil =>
      constructor
      · rintro ⟨g, hg, hx⟩
        have hg2 : g = (k, [s]) := List.mem_singleton.mp hg
        subst hg2
        exact Or.inl (List.mem_singleton.mp hx)
      · rintro (rfl | ⟨g, hg, hx⟩)
        · exact ⟨(k, [x]), List.mem_singleton.mpr rfl, List.mem_singleton.mpr rfl⟩
        · exact absurd hg (by simp)
  | cons g0 rest ih =>
      by_cases h : g0.1 = k
      · have heq : addToGroups k s (g0 :: rest) = (g0.1, g0.2 ++ [s]) :: rest := by
          simp only [addToGroups, if_pos h]
        rw [heq]
        constructor
        · rintro ⟨g, hg, hx⟩
          rcases List.mem_cons.mp hg with he | hm
          · subst he
            rcases List.mem_append.mp hx with hx1 | hx2
            · exact Or.inr ⟨g0, List.mem_cons_self g0 rest, hx1⟩
            · exact Or.inl (List.mem_singleton.mp hx2)
          · exact Or.inr ⟨g, List.mem_cons_of_mem g0 hm, hx⟩
        · rintro (rfl | ⟨g, hg, hx⟩)
          · exact ⟨(g0.1, g0.2 ++ [x]), List.mem_cons_self _ _,
              List.mem_append.mpr (Or.inr (List.mem_singleton.mpr rfl))⟩
          · rcases List.mem_cons.mp hg with he | hm
            · subst he
              exact ⟨(g.1, g.2 ++ [s]), List.mem_cons_self _ _,
                List.mem_append.mpr (Or.inl hx)⟩
            · exact ⟨g, List.mem_cons_of_mem _ hm, hx⟩
      · have heq : addToGroups k s (g0 :: rest) = g0 :: addToGroups k s rest := by
          simp only [addToGroups, if_neg h]
        rw [heq]
        constructor
        · rintro ⟨g, hg, hx⟩
          rcases List.mem_cons.mp hg with he | hm
          · subst he
            exact Or.inr ⟨g, List.mem_cons_self g rest, hx⟩
          · rcases ih.mp ⟨g, hm, hx⟩ with he | ⟨g2, hg2, hx2⟩
            · exact Or.inl he
            · exact Or.inr ⟨g2, List.mem_cons_of_mem g0 hg2, hx2⟩
        · rintro (rfl | ⟨g, hg, hx⟩)
          · rcases ih.mpr (Or.inl rfl) with ⟨g, hg, hx⟩
            exact ⟨g, List.mem_cons_of_mem g0 hg, hx⟩
          · rcases List.mem_cons.mp hg with he | hm
            · subst he
              exact ⟨g, List.mem_cons_self g _, hx⟩
            · rcases ih.mpr (Or.inr ⟨g, hm, hx⟩) with ⟨g2, hg2, hx2⟩
              exact ⟨g2, List.mem_cons_of_mem g0 hg2, hx2⟩

theorem exactClusters_wf :
    ∀ (l : List SeqEntry) (acc : List (List Char × List SeqEntry)),
      (∀ g ∈ acc, ∀ x ∈ g.2, exactKey x = g.1) →
      ∀ g ∈ exactClusters l acc, ∀ x ∈ g.2, exactKey x = g.1 := by
  intro l
  induction l with
  | nil => intro acc h; exact h
  | cons e rest ih =>
      intro acc h
      exact ih (addToGroups (exactKey e) e acc) (addToGroups_wf (exactKey e) e rfl acc h)

theorem exactClusters_nodup_keys :
    ∀ (l : List SeqEntry) (acc : List (List Char × List SeqEntry)),
      ((acc.map Prod.fst).Nodup) → ((exactClusters l acc).map Prod.fst).Nodup := by
  intro l
  induction l with
  | nil => intro acc h; exact h
  | cons e rest ih =>
      intro acc h
      exact ih (addToGroups (exactKey e) e acc) (addToGroups_nodup_keys (exactKey e) e acc h)

theorem mem_exactClusters (x : SeqEntry) :
    ∀ (l : List SeqEntry) (acc : List (List Char × List SeqEntry)),
      (∃ g ∈ exactClusters l acc, x ∈ g.2) ↔ x ∈ l ∨ ∃ g ∈ acc, x ∈ g.2 := by
  intro l
  induction l with
  | nil => intro acc; simp [exactClusters]
  | cons e rest ih =>
      intro acc
      rw [show exactClusters (e :: rest) acc =
          exactClusters rest (addToGroups (exactKey e) e acc) from rfl]
      rw [ih (addToGroups (exactKey e) e acc), mem_addToGroups]
      simp only [List.mem_cons]
      tauto

theorem eq_of_nodup_keys {L : List (List Char × List SeqEntry)}
    (h : (L.map Prod.fst).Nodup) :
    ∀ g1 ∈ L, ∀ g2 ∈ L, g1.1 = g2.1 → g1 = g2 := by
  induction L with
  | nil => intro g1 hg1; exact absurd hg1 (by simp)
  | cons g0 rest ih =>
      intro g1 hg1 g2 hg2 hk
      rw [List.map_cons] at h
      have hnd := List.nodup_cons.mp h
      rcases List.mem_cons.mp hg1 with he1 | hm1 <;> rcases List.mem_cons.mp hg2 with he2 | hm2
      · rw [he1, he2]
      · exfalso
        apply hnd.1
        rw [show g0.1 = g2.1 from by rw [← he1]; exact hk]
        exact List.mem_map_of_mem Prod.fst hm2
      · exfalso
        apply hnd.1
        rw [show g0.1 = g1.1 from by rw [← he2]; exact hk.symm]
        exact List.mem_map_of_mem Prod.fst hm1
      · exact ih hnd.2 g1 hm1 g2 hm2 hk

/-- C5 counterexample: two sequences with different (CDR3, V, J) tuples
collide onto the same joined key string and land in the same exact-mode
cluster, refuting the claimed "iff the tuples are identical". -/
theorem claim_C5_counterexample :
    rowsToCluster [rowC5a, rowC5b] = [entryC5a, entryC5b] ∧
      exactClusters [entryC5a, entryC5b] [] =
        [(exactKey entryC5a, [entryC5a, entryC5b])] ∧
      entryC5a.cdr3 ≠ entryC5b.cdr3 ∧
      exactKey entryC5a = exactKey entryC5b :=
  ⟨by decide, by decide, by decide, by decide⟩

/-- C5 (amended): in exact mode two sequences share a cluster iff their
joined key strings `cdr3||v||j` are equal.  Identical
(CDR3, V family, J family) tuples always yield equal keys and hence the
same cluster, but the converse can fail when a field contains the
separator characters. -/
theorem claim_C5_exact_grouping :
    ∀ (entries : List SeqEntry) (a b : SeqEntry), a ∈ entries → b ∈ entries →
      ((∃ g ∈ exactClusters entries [], a ∈ g.2 ∧ b ∈ g.2) ↔ exactKey a = exactKey b) := by
  intro entries a b ha hb
  constructor
  · rintro ⟨g, hg, hag, hbg⟩
    have hwf := exactClusters_wf entries [] (by simp)
    rw [hwf g hg a hag, hwf g hg b hbg]
  · intro hk
    rcases (mem_exactClusters a entries []).mpr (Or.inl ha) with ⟨ga, hga, hxa⟩
    rcases (mem_exactClusters b entries []).mpr (Or.inl hb) with ⟨gb, hgb, hxb⟩
    have hwf := exactClusters_wf entries [] (by simp)
    have hkeys : ga.1 = gb.1 := by
      rw [← hwf ga hga a hxa, ← hwf gb hgb b hxb, hk]
    have hnd := exactClusters_nodup_keys entries [] (by simp)
    have : ga = gb := eq_of_nodup_keys hnd ga hga gb hgb hkeys
    subst this
    exact ⟨ga, hga, hxa, hxb⟩

/-- Witness for C5 (amended): two entries with equal keys in a concrete
run share a cluster. -/
theorem claim_C5_witness :
    ∃ g ∈ exactClusters [entryC5a, entryC5b] [], entryC5a ∈ g.2 ∧ entryC5b ∈ g.2 :=
  (claim_C5_exact_grouping [entryC5a, entryC5b] entryC5a entryC5b
    (by decide) (by decide)).mpr (by decide)

theorem length_dedup_le_one {l : List String} (f : String) (h : ∀ x ∈ l, x = f) :
    l.dedup.length ≤ 1 := by
  rcases hd : l.dedup with _ | ⟨a, _ | ⟨b, t⟩⟩
  · simp
  · simp
  · exfalso
    have hnd := l.nodup_dedup
    rw [hd] at hnd
    have ha : a = f := h a (l.dedup_subset (by rw [hd]; exact List.mem_cons_self a (b :: t)))
    have hb : b = f := h b (l.dedup_subset (by rw [hd]; simp))
    have := (List.nodup_cons.mp hnd).1
    rw [ha, hb] at this
    simp at this

/-- C6: a cluster appears in the public-clone report iff it is one of the
clusters and its members span at least two distinct source files; a
cluster whose members all come from one file never appears. -/
theorem claim_C6_public_iff :
    ∀ (fileOf : String → String) (clusters : List (List SeqEntry)) (cl : List SeqEntry),
      (cl ∈ publicClusters fileOf clusters ↔
        cl ∈ clusters ∧ 2 ≤ (filesInCluster fileOf cl).length) ∧
      ∀ f : String, (∀ s ∈ cl, fileOf s.id = f) → cl ∉ publicClusters fileOf clusters := by
  intro fileOf clusters cl
  constructor
  · simp [publicClusters, List.mem_filter]
  · intro f hall hmem
    rw [publicClusters, List.mem_filter] at hmem
    have h2 := hmem.2
    rw [decide_eq_true_eq] at h2
    have hle : (filesInCluster fileOf cl).length ≤ 1 := by
      apply length_dedup_le_one f
      intro x hx
      rcases List.mem_map.mp hx with ⟨s, hs, rfl⟩
      exact hall s hs
    omega

/-- Witness for C6: a concrete cluster confined to one file is rejected by
the public filter. -/
theorem claim_C6_witness :
    clC6 ∉ publicClusters (fun _ => "patient_1") [clC6] :=
  (claim_C6_public_iff (fun _ => "patient_1") [clC6] clC6).2 "patient_1"
    (fun _ _ => rfl)

/-- C7 counterexample: on a concrete input, lenient mode (cap 2) merges the
two sequences while custom mode with neither parameter supplied (similarity
threshold 0.85, no cap) keeps them apart — the claimed equivalence fails. -/
theorem claim_C7_counterexample :
    clustersFor .lenient 0.85 none [seqC7a, seqC7b] = [[seqC7a, seqC7b]] ∧
      clustersFor .custom 0.85 none [seqC7a, seqC7b] = [[seqC7a], [seqC7b]] ∧
      ([[seqC7a, seqC7b]] : List (List SeqEntry)) ≠ [[seqC7a], [seqC7b]] := by
  refine ⟨by decide, ?_, by decide⟩
  have hlev : levenshtein_distance seqC7a.cdr3 seqC7b.cdr3 = 2 := by decide
  have hsim : calculate_aa_similarity seqC7a.cdr3 seqC7b.cdr3 = 1 / 2 := by
    have hne : ¬ (seqC7a.cdr3 = [] ∨ seqC7b.cdr3 = []) := by decide
    have h4 : seqC7a.cdr3.length = 4 := by decide
    have h4b : seqC7b.cdr3.length = 4 := by decide
    unfold calculate_aa_similarity
    rw [if_neg hne, hlev, h4, h4b]
    norm_num
  have hjoin : joinsSeed ⟨(0.85 : ℚ), none, false⟩ seqC7a seqC7b = false := by
    unfold joinsSeed
    rw [if_pos (by exact ⟨by decide, by decide⟩)]
    have : ¬ ((0.85 : ℚ) ≤ calculate_aa_similarity seqC7a.cdr3 seqC7b.cdr3) := by
      rw [hsim]
      norm_num
    simp only [this, decide_False]
    rw [if_neg (by decide)]
  show cluster_similar_cdr3 ⟨(0.85 : ℚ), none, false⟩ [seqC7a, seqC7b] = [[seqC7a], [seqC7b]]
  rw [cluster_similar_cdr3]
  rw [show clusterScan ⟨(0.85 : ℚ), none, false⟩ [seqC7a, seqC7b] [] =
      (seqC7a :: (gatherMembers ⟨(0.85 : ℚ), none, false⟩ seqC7a [seqC7b] [seqC7a.id]).1) ::
        clusterScan ⟨(0.85 : ℚ), none, false⟩ [seqC7b]
          (gatherMembers ⟨(0.85 : ℚ), none, false⟩ seqC7a [seqC7b] [seqC7a.id]).2 from by
    rw [clusterScan, if_neg (by decide)]]
  rw [show gatherMembers ⟨(0.85 : ℚ), none, false⟩ seqC7a [seqC7b] [seqC7a.id] =
      ([], [seqC7a.id]) from by
    rw [gatherMembers, if_neg (by decide), if_neg (by rw [hjoin]; decide)]
    rfl]
  rw [show clusterScan ⟨(0.85 : ℚ), none, false⟩ [seqC7b] [seqC7a.id] =
      [[seqC7b]] from by
    rw [clusterScan, if_neg (by decide)]
    rfl]

/-- C7 (amended): custom mode with neither a similarity threshold nor a
mismatch cap supplied clusters by the similarity rule at the default
threshold 0.85 with no cap, while lenient mode clusters with the absolute
cap 2; the fallback reuses lenient's threshold value but not lenient's
behaviour. -/
theorem claim_C7_custom_default :
    ∀ entries : List SeqEntry,
      clustersFor .custom 0.85 none entries =
        cluster_similar_cdr3 ⟨(0.85 : ℚ), none, false⟩ entries ∧
      clustersFor .lenient 0.85 none entries =
        cluster_similar_cdr3 ⟨(0.85 : ℚ), some 2, false⟩ entries := by
  intro entries
  exact ⟨rfl, rfl⟩

/-- C9: at the failing input the patient columns are sorted and the
presence row is as claimed, but the frequency cell for patient "A" is 2 —
the code counts ids containing "A" as a substring — although exactly one
member sequence has source file "A", the count the claim specifies. -/
theorem claim_C9_frequency_bug :
    (heatmapOf [cloneC9] ["A", "AB"]).patients = ["A", "AB"] ∧
      (heatmapOf [cloneC9] ["A", "AB"]).matrix = [[1, 1]] ∧
      (heatmapOf [cloneC9] ["A", "AB"]).frequencies = [[2, 1]] ∧
      (cloneC9.sequences.filter (fun s => decide (fileOfSeqId s.data = ['A']))).length = 1 ∧
      (2 : Nat) ≠ 1 := by
  refine ⟨by decide, by decide, by decide, by decide, by decide⟩

/-- C3 counterexample: with calculated threshold 0.12, a host line that is
valid JSON but not an object (a "malformed shape") resolves to the fixed
default 0.1, not to the calculated 0.12 as the claim requires. -/
theorem claim_C3_counterexample :
    negotiate (0.12 : ℚ) .nonObject = some (0.1 : ℚ) ∧ (0.1 : ℚ) ≠ (0.12 : ℚ) :=
  ⟨rfl, by norm_num⟩

/-- C3 (amended): a `threshold_response` with a numeric value resolves to
that value; a `cancel` line aborts the run with success=false; an empty
line, unparsable JSON, an unrecognized type or a missing value resolve to
the calculated threshold; but a non-object JSON line, or a
`threshold_response` whose value `float()` cannot convert, resolves to the
fixed default 0.1.  No negotiation input other than `cancel` aborts the
run. -/
theorem claim_C3_negotiation :
    ∀ (c v : ℚ) (w : Option (Option ℚ)) (t : Option String),
      step7 c (.obj (some "threshold_response") (some (some v))) = .proceed v ∧
      step7 c (.obj (some "cancel") w) = .abortCancelled ∧
      step7 c .noLine = .proceed c ∧
      step7 c .badJson = .proceed c ∧
      (t ≠ some "threshold_response" → t ≠ some "cancel" →
        step7 c (.obj t w) = .proceed c) ∧
      step7 c (.obj (some "threshold_response") none) = .proceed c ∧
      step7 c .nonObject = .proceed (0.1 : ℚ) ∧
      step7 c (.obj (some "threshold_response") (some none)) = .proceed (0.1 : ℚ) ∧
      (∀ line : HostLine, step7 c line = .abortCancelled ↔
        ∃ w2 : Option (Option ℚ), line = .obj (some "cancel") w2) := by
  intro c v w t
  refine ⟨rfl, rfl, rfl, rfl, ?_, rfl, rfl, rfl, ?_⟩
  · intro h1 h2
    unfold step7
    rw [show negotiate c (.obj t w) = some c from by
      simp only [negotiate]
      rw [if_neg h1, if_neg h2]]
  · intro line
    cases line with
    | noLine =>
        simp only [step7, negotiate]
        constructor
        · intro h
          exact absurd h (by simp)
        · rintro ⟨w2, hw⟩
          exact absurd hw (by simp)
    | badJson =>
        constructor
        · intro h
          exact absurd h (by simp [step7, negotiate])
        · rintro ⟨w2, hw⟩
          exact absurd hw (by simp)
    | nonObject =>
        constructor
        · intro h
          exact absurd h (by simp [step7, negotiate])
        · rintro ⟨w2, hw⟩
          exact absurd hw (by simp)
    | obj ty val =>
        by_cases h1 : ty = some "threshold_response"
        · subst h1
          constructor
          · intro h
            rcases val with _ | _ | v2 <;> simp [step7, negotiate] at h
          · rintro ⟨w2, hw⟩
            exact absurd hw (by simp)
        · by_cases h2 : ty = some "cancel"
          · subst h2
            constructor
            · intro _
              exact ⟨val, rfl⟩
            · intro _
              rfl
          · constructor
            · intro h
              rw [show step7 c (.obj ty val) = .proceed c from by
                unfold step7
                rw [show negotiate c (.obj ty val) = some c from by
                  simp only [negotiate]
                  rw [if_neg h1, if_neg h2]]] at h
              exact absurd h (by simp)
            · rintro ⟨w2, hw⟩
              have : ty = some "cancel" := by
                injection hw with hbody
              exact absurd this h2

/-- Witness for C3 (amended): the unrecognized-type case at a concrete
line. -/
theorem claim_C3_witness :
    step7 (12 / 100 : ℚ) (.obj (some "weird") none) = .proceed (12 / 100 : ℚ) :=
  ((claim_C3_negotiation (12 / 100 : ℚ) 0 none (some "weird")).2.2.2.2.1
    (by decide) (by decide))

theorem isPre_append (p q : List Char) : isPre p (p ++ q) = true := by
  induction p with
  | nil => rfl
  | cons a as ih => simp [isPre, ih]

/-- C8: when every fatal stage succeeds but the tree-building or the
tree-visualization stage fails, the run still ends with
`complete{success=true}`, and some warn-level log whose message starts
with "Tree" precedes it. -/
theorem claim_C8_tree_nonfatal :
    ∀ (e : RunEnv) (t : ℚ),
      e.load_ok = true → e.clean_ok = true → e.setup_ok = true →
      e.combine_ok = true → e.blastDb_ok = true → e.igblast_ok = true →
      e.threshold = some t → e.clonality_ok = true → e.results_ok = true →
      (treeStageFails e.trees ∨ vizStageFails e.viz) →
      ∃ pre s, run e = pre ++ [Msg.complete true none] ∧
        Msg.log "warn" s ∈ pre ∧ isPre "Tree".data s.data = true := by
  intro e t h1 h2 h3 h4 h5 h6 h7 h8 h9 hfail
  have hrun : run e = (e.loadTrace ++ (e.cleanTrace ++ (e.setupTrace ++ (e.combineTrace ++
      (e.blastDbTrace ++ (e.igblastTrace ++ (e.thresholdTrace ++ (e.clonalityTrace ++
      ((build_trees e.trees).1 ++ ((visualize_trees e.viz).1 ++ (e.resultsTrace ++
      [Msg.progress "complete" 100 "Analysis complete!"]))))))))))) ++
      [Msg.complete true none] := by
    unfold run
    rw [h1, h2, h3, h4, h5, h6, h7, h8, h9]
    simp [List.append_assoc]
  have hwarn : ∃ s, (Msg.log "warn" s ∈ (build_trees e.trees).1 ∨
      Msg.log "warn" s ∈ (visualize_trees e.viz).1) ∧ isPre "Tree".data s.data = true := by
    rcases hfail with ht | hv
    · rcases htrees : e.trees with _ | s0 | n0 | m0
      · rw [htrees] at ht
        exact absurd ht (by simp [treeStageFails])
      · refine ⟨"Tree building failed: " ++ s0, Or.inl ?_, ?_⟩
        · simp [build_trees]
        · rw [show ("Tree building failed: " ++ s0).data =
              "Tree".data ++ (" building failed: ".data ++ s0.data) from by
            rw [String.data_append]
            rw [show ("Tree building failed: ").data =
              "Tree".data ++ " building failed: ".data from rfl]
            rw [List.append_assoc]]
          exact isPre_append _ _
      · rw [htrees] at ht
        exact absurd ht (by simp [treeStageFails])
      · refine ⟨"Tree building failed (non-fatal): " ++ m0, Or.inl ?_, ?_⟩
        · simp [build_trees]
        · rw [show ("Tree building failed (non-fatal): " ++ m0).data =
              "Tree".data ++ (" building failed (non-fatal): ".data ++ m0.data) from by
            rw [String.data_append]
            rw [show ("Tree building failed (non-fatal): ").data =
              "Tree".data ++ " building failed (non-fatal): ".data from rfl]
            rw [List.append_assoc]]
          exact isPre_append _ _
    · rcases hviz : e.viz with ⟨rcZero, s0, hasImages, n0⟩ | m0
      · rw [hviz] at hv
        have hrc : rcZero = false := hv
        subst hrc
        refine ⟨"Tree visualization returned non-zero: " ++ s0, Or.inr ?_, ?_⟩
        · simp [visualize_trees]
        · rw [show ("Tree visualization returned non-zero: " ++ s0).data =
              "Tree".data ++ (" visualization returned non-zero: ".data ++ s0.data) from by
            rw [String.data_append]
            rw [show ("Tree visualization returned non-zero: ").data =
              "Tree".data ++ " visualization returned non-zero: ".data from rfl]
            rw [List.append_assoc]]
          exact isPre_append _ _
      · refine ⟨"Tree visualization failed (non-fatal): " ++ m0, Or.inr ?_, ?_⟩
        · simp [visualize_trees]
        · rw [show ("Tree visualization failed (non-fatal): " ++ m0).data =
              "Tree".data ++ (" visualization failed (non-fatal): ".data ++ m0.data) from by
            rw [String.data_append]
            rw [show ("Tree visualization failed (non-fatal): ").data =
              "Tree".data ++ " visualization failed (non-fatal): ".data from rfl]
            rw [List.append_assoc]]
          exact isPre_append _ _
  rcases hwarn with ⟨s, hs, hp⟩
  refine ⟨_, s, hrun, ?_, hp⟩
  rcases hs with hs | hs
  · simp only [List.mem_append]
    tauto
  · simp only [List.mem_append]
    tauto

/-- Witness for C8: the theorem applied to the concrete environment. -/
theorem claim_C8_witness :
    ∃ pre s, run envC8 = pre ++ [Msg.complete true none] ∧
      Msg.log "warn" s ∈ pre ∧ isPre "Tree".data s.data = true :=
  claim_C8_tree_nonfatal envC8 (1 / 10 : ℚ) rfl rfl rfl rfl rfl rfl rfl rfl rfl
    (Or.inl trivial)

end BCell

